import Mathlib

/-!
Shallow embedding of the neural-network building blocks in
ctools/torch_utils/network/nn_module.py and of the DRQN output-shape
contract exercised by ctools/model/dqn/test_dqn_network.py.

Tensors of rank 4 (batch, channel, height, width) are modelled as
functions from flat Nat indices in each dimension to values; a 1-D
integer tensor is a List Int.  Python exceptions are modelled by an
explicit error type.
-/

namespace NNModule

/-- A 4-D tensor (batch, channel, height, width) as an index function. -/
def Tensor4 (α : Type) : Type := Nat → Nat → Nat → Nat → α

/-- A 5-D tensor (batch, group, channel-in-group, height, width) as an index function. -/
def Tensor5 (α : Type) : Type := Nat → Nat → Nat → Nat → Nat → α

/-- Python exceptions relevant to this module. -/
inductive PyError
  | keyError (msg : String)
  | assertionError
  | valueError (msg : String)
  deriving Repr, DecidableEq

/-- x.view(b, g, c // g, h, w) of a contiguous (b, c, h, w) tensor: the channel
dimension of extent c = g * n is split into (group, within-group) indices, the
group index being the more significant one.  The argument n is c // g. -/
def view5 {α : Type} (n : Nat) (x : Tensor4 α) : Tensor5 α :=
  fun i q r j l => x i (q * n + r) j l

/-- .permute(0, 2, 1, 3, 4): dimensions 1 and 2 are swapped. -/
def permute02134 {α : Type} (x : Tensor5 α) : Tensor5 α :=
  fun i r q j l => x i q r j l

/-- .contiguous().view(b, c, h, w) of a (b, n, g, h, w) tensor: the two middle
dimensions are flattened back into one channel dimension of extent c = n * g,
the first of the two being the more significant one.  The argument g is the
extent of the less significant dimension. -/
def view4 {α : Type} (g : Nat) (x : Tensor5 α) : Tensor4 α :=
  fun i k j l => x i (k / g) (k % g) j l

/-- ChannelShuffle.forward after its assertion: the body
x.view(b, g, c // g, h, w).permute(0, 2, 1, 3, 4).contiguous().view(b, c, h, w). -/
def ChannelShuffle.forward {α : Type} (g c : Nat) (x : Tensor4 α) : Tensor4 α :=
  view4 g (permute02134 (view5 (c / g) x))

/-- ChannelShuffle.forward including the assert (c % g == 0) that guards the body:
an AssertionError is raised when the channel count is not divisible by the group
number, otherwise the shuffled tensor is returned. -/
def ChannelShuffle.forwardChecked {α : Type} (g c : Nat) (x : Tensor4 α) :
    Except PyError (Tensor4 α) :=
  if c % g = 0 then Except.ok (ChannelShuffle.forward g c x)
  else Except.error PyError.assertionError

/-- Unfolding lemma: the composite view-permute-view is a pure channel reindexing. -/
theorem ChannelShuffle.forward_apply {α : Type} (g c : Nat) (x : Tensor4 α)
    (i k j l : Nat) :
    ChannelShuffle.forward g c x i k j l = x i ((k % g) * (c / g) + k / g) j l := rfl

/-- A concrete tensor used by witnesses: the value encodes its four indices. -/
def idxTensor : Tensor4 Nat := fun i k j l => ((i * 100 + k) * 100 + j) * 100 + l

/-- Claim C2: channel shuffle is the fixed permutation of channel groups: with
c channels split into g groups of n = c / g, the output at channel r * g + q
(0 <= q < g, 0 <= r < n) is the input at channel q * n + r, with batch and
spatial indices passed through unchanged; the index arithmetic involves only
c and g, never the data. -/
theorem channelShuffle_perm {α : Type} (g c : Nat) (x : Tensor4 α)
    (i j l q r : Nat) (hq : q < g) (hr : r < c / g) :
    ChannelShuffle.forward g c x i (r * g + q) j l = x i (q * (c / g) + r) j l := by
  rw [ChannelShuffle.forward_apply]
  have hg : 0 < g := by omega
  have hmod : (r * g + q) % g = q := by
    rw [Nat.mul_comm r g, Nat.mul_add_mod]
    exact Nat.mod_eq_of_lt hq
  have hdiv : (r * g + q) / g = r := by
    rw [Nat.mul_comm r g, Nat.mul_add_div hg, Nat.div_eq_of_lt hq, Nat.add_zero]
  rw [hmod, hdiv]

/-- Witness for C2 at g = 2, c = 6, q = 1, r = 2: output channel r * g + q = 5
holds input channel q * (c / g) + r = 5 for these values. -/
theorem channelShuffle_perm_witness :
    ChannelShuffle.forward 2 6 idxTensor 1 (2 * 2 + 1) 3 4 = idxTensor 1 (1 * (6 / 2) + 2) 3 4 :=
  channelShuffle_perm 2 6 idxTensor 1 3 4 1 2 (by decide) (by decide)

/-- Claim C6: ChannelShuffle(g).forward(x) raises an AssertionError exactly when
the channel count c is not divisible by the (positive) group number g, and
returns the shuffled tensor normally when it is. -/
theorem channelShuffle_assert {α : Type} (g c : Nat) (x : Tensor4 α) (hg : 0 < g) :
    (ChannelShuffle.forwardChecked g c x = Except.error PyError.assertionError ↔ ¬ g ∣ c) ∧
    (g ∣ c → ChannelShuffle.forwardChecked g c x = Except.ok (ChannelShuffle.forward g c x)) := by
  have hiff : g ∣ c ↔ c % g = 0 := Nat.dvd_iff_mod_eq_zero
  constructor
  · unfold ChannelShuffle.forwardChecked
    by_cases h : c % g = 0
    · simp [h, hiff]
    · simp [h, hiff]
  · intro h
    unfold ChannelShuffle.forwardChecked
    rw [if_pos (hiff.mp h)]

/-- Witness for C6 at g = 3, c = 7: the channel count is not divisible, so the
checked forward yields an AssertionError. -/
theorem channelShuffle_assert_witness :
    (ChannelShuffle.forwardChecked 3 7 idxTensor = Except.error PyError.assertionError ↔
      ¬ (3 : Nat) ∣ 7) ∧
    ((3 : Nat) ∣ 7 →
      ChannelShuffle.forwardChecked 3 7 idxTensor =
        Except.ok (ChannelShuffle.forward 3 7 idxTensor)) :=
  channelShuffle_assert 3 7 idxTensor (by decide)

/-- Claim C9: shuffling with g groups and then with c / g groups restores every
in-range entry: the two permutations are inverse to each other. -/
theorem channelShuffle_roundtrip {α : Type} (g c : Nat) (x : Tensor4 α)
    (i j l k : Nat) (hgc : g ∣ c) (hk : k < c) :
    ChannelShuffle.forward (c / g) c (ChannelShuffle.forward g c x) i k j l = x i k j l := by
  have hc : 0 < c := by omega
  have hg : 0 < g := by
    rcases Nat.eq_zero_or_pos g with h0 | h
    · subst h0; rw [Nat.zero_dvd.mp hgc] at hk; omega
    · exact h
  have hn : 0 < c / g := Nat.div_pos (Nat.le_of_dvd hc hgc) hg
  have hcg : c / (c / g) = g := Nat.div_div_self hgc (Nat.ne_of_gt hc)
  rw [ChannelShuffle.forward_apply, ChannelShuffle.forward_apply, hcg]
  set n := c / g with hn_def
  have hkdiv : k / n < g := by
    have hlt : k < n * g := by
      have : n * g = c := by rw [hn_def, Nat.div_mul_cancel hgc]
      omega
    exact Nat.div_lt_of_lt_mul hlt
  have h2 : (k % n * g + k / n) % g = k / n := by
    rw [Nat.mul_comm (k % n) g, Nat.mul_add_mod]
    exact Nat.mod_eq_of_lt hkdiv
  have h1 : (k % n * g + k / n) / g = k % n := by
    rw [Nat.mul_comm (k % n) g, Nat.mul_add_div hg, Nat.div_eq_of_lt hkdiv, Nat.add_zero]
  rw [h2, h1]
  have h3 : k / n * n + k % n = k := by
    have h := Nat.div_add_mod k n
    rw [Nat.mul_comm n (k / n)] at h
    exact h
  rw [h3]

/-- Witness for C9 at g = 2, c = 6, k = 4. -/
theorem channelShuffle_roundtrip_witness :
    ChannelShuffle.forward (6 / 2) 6 (ChannelShuffle.forward 2 6 idxTensor) 1 4 2 3 =
      idxTensor 1 4 2 3 :=
  channelShuffle_roundtrip 2 6 idxTensor 1 2 3 4 (by decide) (by decide)

/-! ## one_hot -/

/-- torch.nn.functional.one_hot applied to a single scalar entry: a length-num
vector with a 1 at the entry value and 0 elsewhere (framework primitive, the
body of one_hot delegates to it elementwise and appends the vector as a
trailing dimension). -/
def F.one_hot_entry (num : Nat) (v : Nat) : List Nat :=
  (List.range num).map (fun j => if j = v then 1 else 0)

/-- one_hot(val, num, num_first): the body is
torch.nn.functional.one_hot(val, num).float(); the num_first argument is never
read.  A 1-D Long tensor is modelled as a list of Nat. -/
def one_hot (val : List Nat) (num : Nat) (num_first : Bool := false) : List (List Nat) :=
  val.map (F.one_hot_entry num)

/-- Entry lookup in a single one-hot vector. -/
theorem F.one_hot_entry_getD (num v j : Nat) (hj : j < num) :
    (F.one_hot_entry num v).getD j 0 = if j = v then 1 else 0 := by
  have hlen : j < (F.one_hot_entry num v).length := by
    simpa [F.one_hot_entry] using hj
  rw [List.getD_eq_getElem _ _ hlen]
  simp [F.one_hot_entry]

/-- Claim C3: one_hot appends a trailing dimension of size num and each element
becomes a binary vector whose single set bit sits at the index equal to the
value of that element; every other entry is 0. -/
theorem one_hot_correct (val : List Nat) (num : Nat) (num_first : Bool)
    (hval : ∀ v ∈ val, v < num) :
    (one_hot val num num_first).length = val.length ∧
    ∀ i, (hi : i < val.length) →
      ((one_hot val num num_first).getD i []).length = num ∧
      ((one_hot val num num_first).getD i []).getD (val.getD i 0) 0 = 1 ∧
      ∀ j, j < num → j ≠ val.getD i 0 → ((one_hot val num num_first).getD i []).getD j 0 = 0 := by
  constructor
  · simp [one_hot]
  · intro i hi
    have hlen : (one_hot val num num_first).length = val.length := by simp [one_hot]
    have hrow : (one_hot val num num_first).getD i [] = F.one_hot_entry num (val.getD i 0) := by
      rw [List.getD_eq_getElem _ _ (by rw [hlen]; exact hi), List.getD_eq_getElem _ _ hi]
      simp [one_hot]
    rw [hrow]
    have hv : val.getD i 0 < num := by
      have : val.getD i 0 ∈ val := by
        rw [List.getD_eq_getElem _ _ hi]
        exact List.getElem_mem hi
      exact hval _ this
    refine ⟨by simp [F.one_hot_entry], ?_, ?_⟩
    · rw [F.one_hot_entry_getD num _ _ hv, if_pos rfl]
    · intro j hj hne
      rw [F.one_hot_entry_getD num _ _ hj, if_neg hne]

/-- Witness for C3 at val = [2, 0], num = 3, i = 0: the row is [0, 0, 1]. -/
theorem one_hot_correct_witness :
    ((one_hot [2, 0] 3 false).getD 0 []).length = 3 ∧
    ((one_hot [2, 0] 3 false).getD 0 []).getD ([2, 0].getD 0 0) 0 = 1 ∧
    ∀ j, j < 3 → j ≠ [2, 0].getD 0 0 → ((one_hot [2, 0] 3 false).getD 0 []).getD j 0 = 0 :=
  (one_hot_correct [2, 0] 3 false (by decide)).2 0 (by decide)

/-- Claim C8: the num_first argument is ignored: the body never reads it, so the
results with num_first true and false coincide and the encoding dimension is
always the trailing one. -/
theorem one_hot_ignores_num_first (val : List Nat) (num : Nat) :
    one_hot val num true = one_hot val num false := rfl

/-! ## weight_init_ -/

/-- weight_init_(weight, init_type, activation).  The three torch initializers
xavier_normal_, kaiming_normal_ and orthogonal_ are framework primitives passed
in as parameters; the function dispatches on init_type through a dict with the
three keys xavier, kaiming and orthogonal, the kaiming branch asserting that an
activation is present, and raises KeyError("Invalid Value in init type: " plus
the value) on any other key.  The result pairs the raised exception (if any)
with the final weight; in every error branch the weight is returned untouched. -/
def weight_init_ {W A : Type} (xavierInit : W → W) (kaimingInit : W → A → W)
    (orthogonalInit : W → W) (weight : W) (init_type : String) (activation : Option A) :
    Option PyError × W :=
  if init_type = "xavier" then (none, xavierInit weight)
  else if init_type = "kaiming" then
    match activation with
    | none => (some PyError.assertionError, weight)
    | some a => (none, kaimingInit weight a)
  else if init_type = "orthogonal" then (none, orthogonalInit weight)
  else (some (PyError.keyError ("Invalid Value in init type: " ++ init_type)), weight)

/-- Recognizer for a raised KeyError. -/
def isKeyError : Option PyError → Bool
  | some (PyError.keyError _) => true
  | _ => false

/-- Claim C5: weight_init_ raises a KeyError naming the invalid value exactly
when init_type is none of xavier, kaiming, orthogonal; in that error case the
weight is left unmodified. -/
theorem weight_init_keyError {W A : Type} (xavierInit : W → W) (kaimingInit : W → A → W)
    (orthogonalInit : W → W) (weight : W) (init_type : String) (activation : Option A) :
    (isKeyError (weight_init_ xavierInit kaimingInit orthogonalInit weight
        init_type activation).1 = true ↔
      (init_type ≠ "xavier" ∧ init_type ≠ "kaiming" ∧ init_type ≠ "orthogonal")) ∧
    ((init_type ≠ "xavier" ∧ init_type ≠ "kaiming" ∧ init_type ≠ "orthogonal") →
      weight_init_ xavierInit kaimingInit orthogonalInit weight init_type activation =
        (some (PyError.keyError ("Invalid Value in init type: " ++ init_type)), weight)) := by
  unfold weight_init_
  by_cases h1 : init_type = "xavier"
  · simp [h1, isKeyError]
  · by_cases h2 : init_type = "kaiming"
    · cases activation with
      | none => simp [h1, h2, isKeyError]
      | some a => simp [h1, h2, isKeyError]
    · by_cases h3 : init_type = "orthogonal"
      · simp [h1, h2, h3, isKeyError]
      · simp [h1, h2, h3, isKeyError]

/-- Witness for C5 at init_type = "bad" with identity initializers over Nat
weights: the KeyError is raised, names the value, and the weight 5 is kept. -/
theorem weight_init_keyError_witness :
    (isKeyError (weight_init_ (W := Nat) (A := Nat) id (fun w _ => w) id 5 "bad" none).1 = true ↔
      (("bad" : String) ≠ "xavier" ∧ ("bad" : String) ≠ "kaiming" ∧
        ("bad" : String) ≠ "orthogonal")) ∧
    ((("bad" : String) ≠ "xavier" ∧ ("bad" : String) ≠ "kaiming" ∧
        ("bad" : String) ≠ "orthogonal") →
      weight_init_ (W := Nat) (A := Nat) id (fun w _ => w) id 5 "bad" none =
        (some (PyError.keyError ("Invalid Value in init type: " ++ "bad")), 5)) :=
  weight_init_keyError id (fun w _ => w) id 5 "bad" none

/-! ## NearestUpsample -/

/-- torch.nn.functional.interpolate restricted to mode nearest (the only mode
this module passes together with an align_corners argument).  The framework
primitive first validates its arguments: for the modes nearest and area it
raises ValueError whenever align_corners is not None; only then does it compute
the nearest-neighbour upsampling, in which output spatial index j maps to input
index j / scale_factor. -/
def F.interpolate_nearest {α : Type} (x : Tensor4 α) (scale_factor : Nat)
    (align_corners : Option Bool) : Except PyError (Tensor4 α) :=
  if align_corners.isSome then
    Except.error (PyError.valueError
      ("align_corners option can only be set with the " ++
        "interpolating modes: linear | bilinear | bicubic | trilinear"))
  else
    Except.ok (fun i k j l => x i k (j / scale_factor) (l / scale_factor))

/-- NearestUpsample.forward: the body is
F.interpolate(x, scale_factor=self.scale_factor, mode=nearest,
align_corners=False) — note the non-None align_corners. -/
def NearestUpsample.forward {α : Type} (scale_factor : Nat) (x : Tensor4 α) :
    Except PyError (Tensor4 α) :=
  F.interpolate_nearest x scale_factor (some false)

/-- Claim C4 (refuted, code bug): NearestUpsample.forward never returns an
upsampled tensor; because it passes align_corners=False together with mode
nearest, the framework raises ValueError on every input. -/
theorem nearestUpsample_always_raises {α : Type} (scale_factor : Nat) (x : Tensor4 α) :
    NearestUpsample.forward scale_factor x =
      Except.error (PyError.valueError
        ("align_corners option can only be set with the " ++
          "interpolating modes: linear | bilinear | bicubic | trilinear")) := rfl

/-! ## binary_encode -/

/-- Fuel-driven floor base-2 logarithm (structural recursion so that it
evaluates by the kernel). -/
def log2F : Nat → Nat → Nat
  | 0, _ => 0
  | fuel + 1, n => if 2 ≤ n then log2F fuel (n / 2) + 1 else 0

/-- int(math.log(max_val, 2)): the floor of the base-2 logarithm of a positive
integer (the idealized value of the float computation in the source). -/
def intLog2 (n : Nat) : Nat := log2F n n

/-- The fuel computation agrees with Mathlib floor log once the fuel covers the
argument. -/
theorem log2F_eq_log : ∀ (fuel n : Nat), n ≤ fuel → log2F fuel n = Nat.log 2 n := by
  intro fuel
  induction fuel with
  | zero =>
    intro n hn
    have : n = 0 := by omega
    subst this
    simp [log2F]
  | succ f ih =>
    intro n hn
    by_cases h : 2 ≤ n
    · have hrec : n / 2 ≤ f := by omega
      have hpos : 0 < Nat.log 2 n := Nat.log_pos (by omega) h
      have hdiv : Nat.log 2 (n / 2) = Nat.log 2 n - 1 := Nat.log_div_base 2 n
      simp only [log2F, if_pos h, ih (n / 2) hrec, hdiv]
      omega
    · have hlog : Nat.log 2 n = 0 := by
        rw [Nat.log_eq_zero_iff]
        left; omega
      simp [log2F, h, hlog]

/-- intLog2 is the floor base-2 logarithm. -/
theorem intLog2_eq_log (n : Nat) : intLog2 n = Nat.log 2 n :=
  log2F_eq_log n n (Nat.le_refl n)

/-- y.clamp(lo, hi) on one integer entry. -/
def clampI (lo hi v : Int) : Int := max lo (min hi v)

/-- The loop of binary_encode specialized to one scalar entry: with n bit
positions left, the bit at weight 2 ^ (n - 1) is extracted by comparison and
subtracted before recursing; this is the elementwise effect of the tensor loop. -/
def encode_bits : Int → Nat → List Int
  | _, 0 => []
  | x, n + 1 =>
    let num : Int := 2 ^ n
    let bit : Int := if num ≤ x then 1 else 0
    bit :: encode_bits (x - bit * num) n

/-- The loop of binary_encode on a whole 1-D tensor: for the i-th iteration
(n + 1 positions left) num = 2 ^ n; bit = torch.where(x >= num, ones, zeros);
x -= bit * num; the bit tensors are collected in order. -/
def binary_encode_go : List Int → Nat → List (List Int)
  | _, 0 => []
  | x, n + 1 =>
    let num : Int := 2 ^ n
    let bit : List Int := x.map (fun v => if num ≤ v then 1 else 0)
    bit :: binary_encode_go (List.zipWith (fun v bv => v - bv * num) x bit) n

/-- binary_encode(y, max_val) for a 1-D integer tensor y (the assert max_val > 0
passes under the hypotheses of the claims): clamp to [0, max_val], take
L = int(math.log(max_val, 2)) + 1 bit positions, run the extraction loop, and
stack the L bit tensors along dim 1, i.e. row b of the result collects the b-th
entry of every bit tensor. -/
def binary_encode (y : List Int) (max_val : Nat) : List (List Int) :=
  let x := y.map (fun v => clampI 0 (max_val : Int) v)
  let L := intLog2 max_val + 1
  let binary := binary_encode_go x L
  (List.range y.length).map (fun b => binary.map (fun bits => bits.getD b 0))

/-- Scalar loop invariant: for 0 <= x < 2 ^ n the extracted bits are binary,
there are n of them, and they reconstruct x big-endian. -/
theorem encode_bits_spec (n : Nat) : ∀ (x : Int), 0 ≤ x → x < 2 ^ n →
    (encode_bits x n).length = n ∧
    (∀ b ∈ encode_bits x n, b = 0 ∨ b = 1) ∧
    Finset.sum (Finset.range n) (fun j => (encode_bits x n).getD j 0 * 2 ^ (n - 1 - j)) = x := by
  induction n with
  | zero =>
    intro x h0 h1
    refine ⟨rfl, ?_, ?_⟩
    · intro b hb
      simp [encode_bits] at hb
    · simp [encode_bits]
      omega
  | succ n ih =>
    intro x h0 h1
    have hpow : (0 : Int) < 2 ^ n := by positivity
    have hx' : 0 ≤ x - (if (2 : Int) ^ n ≤ x then 1 else 0) * 2 ^ n ∧
        x - (if (2 : Int) ^ n ≤ x then 1 else 0) * 2 ^ n < 2 ^ n := by
      by_cases hb : (2 : Int) ^ n ≤ x
      · rw [if_pos hb]
        constructor
        · omega
        · have : x < 2 ^ (n + 1) := h1
          rw [pow_succ] at this
          omega
      · rw [if_neg hb]
        constructor
        · omega
        · omega
    obtain ⟨hlen, hmem, hsum⟩ := ih _ hx'.1 hx'.2
    refine ⟨?_, ?_, ?_⟩
    · simp only [encode_bits, List.length_cons, hlen]
    · intro b hb
      simp only [encode_bits, List.mem_cons] at hb
      rcases hb with hb | hb
      · subst hb
        by_cases hx : (2 : Int) ^ n ≤ x
        · right; rw [if_pos hx]
        · left; rw [if_neg hx]
      · exact hmem b hb
    · show Finset.sum (Finset.range (n + 1))
        (fun j => (encode_bits x (n + 1)).getD j 0 * 2 ^ (n + 1 - 1 - j)) = x
      rw [Finset.sum_range_succ']
      have hhead : (encode_bits x (n + 1)).getD 0 0 * 2 ^ (n + 1 - 1 - 0) =
          (if (2 : Int) ^ n ≤ x then 1 else 0) * 2 ^ n := by
        simp [encode_bits]
      have htail : ∀ j ∈ Finset.range n,
          (encode_bits x (n + 1)).getD (j + 1) 0 * 2 ^ (n + 1 - 1 - (j + 1)) =
          (encode_bits (x - (if (2 : Int) ^ n ≤ x then 1 else 0) * 2 ^ n) n).getD j 0 *
            2 ^ (n - 1 - j) := by
        intro j hj
        have h1' : (encode_bits x (n + 1)).getD (j + 1) 0 =
            (encode_bits (x - (if (2 : Int) ^ n ≤ x then 1 else 0) * 2 ^ n) n).getD j 0 := by
          simp [encode_bits]
        rw [h1']
        congr 2
        omega
      rw [Finset.sum_congr rfl htail, hsum, hhead]
      omega

/-- The tensor loop produces n bit tensors. -/
theorem binary_encode_go_length : ∀ (n : Nat) (x : List Int),
    (binary_encode_go x n).length = n := by
  intro n
  induction n with
  | zero => intro x; rfl
  | succ n ih => intro x; simp [binary_encode_go, ih]

/-- Column b of the tensor loop output is the scalar loop applied to entry b. -/
theorem binary_encode_go_col : ∀ (n : Nat) (x : List Int) (b : Nat), b < x.length →
    (binary_encode_go x n).map (fun bits => bits.getD b 0) = encode_bits (x.getD b 0) n := by
  intro n
  induction n with
  | zero => intro x b hb; rfl
  | succ n ih =>
    intro x b hb
    have hmaplen : b < (x.map (fun v => if (2 : Int) ^ n ≤ v then (1 : Int) else 0)).length := by
      simpa using hb
    have hbit : (x.map (fun v => if (2 : Int) ^ n ≤ v then (1 : Int) else 0)).getD b 0 =
        (if (2 : Int) ^ n ≤ x.getD b 0 then (1 : Int) else 0) := by
      rw [List.getD_eq_getElem _ _ hmaplen, List.getD_eq_getElem _ _ hb]
      simp
    have hziplen : b < (List.zipWith (fun v bv => v - bv * (2 : Int) ^ n) x
        (x.map (fun v => if (2 : Int) ^ n ≤ v then (1 : Int) else 0))).length := by
      simpa using hb
    have hzip : (List.zipWith (fun v bv => v - bv * (2 : Int) ^ n) x
        (x.map (fun v => if (2 : Int) ^ n ≤ v then (1 : Int) else 0))).getD b 0 =
        x.getD b 0 - (if (2 : Int) ^ n ≤ x.getD b 0 then (1 : Int) else 0) * 2 ^ n := by
      rw [List.getD_eq_getElem _ _ hziplen, List.getD_eq_getElem _ _ hb]
      simp
    have hlenzip : (List.zipWith (fun v bv => v - bv * (2 : Int) ^ n) x
        (x.map (fun v => if (2 : Int) ^ n ≤ v then (1 : Int) else 0))).length = x.length := by
      simp
    simp only [binary_encode_go, encode_bits, List.map_cons]
    rw [hbit, ih _ b (by rw [hlenzip]; exact hb), hzip]

/-- Claim C1: binary_encode returns a B-by-L matrix, L = floor(log2(max_val)) + 1,
whose entries are bits, and whose row i read big-endian reconstructs the input
entry clamped to [0, max_val]. -/
theorem binary_encode_correct (y : List Int) (max_val : Nat) (hm : 0 < max_val) :
    (binary_encode y max_val).length = y.length ∧
    ∀ i, i < y.length →
      ((binary_encode y max_val).getD i []).length = Nat.log 2 max_val + 1 ∧
      (∀ b ∈ (binary_encode y max_val).getD i [], b = 0 ∨ b = 1) ∧
      Finset.sum (Finset.range (Nat.log 2 max_val + 1))
        (fun j => ((binary_encode y max_val).getD i []).getD j 0 *
          2 ^ (Nat.log 2 max_val + 1 - 1 - j)) =
        clampI 0 (max_val : Int) (y.getD i 0) := by
  have hL : intLog2 max_val + 1 = Nat.log 2 max_val + 1 := by rw [intLog2_eq_log]
  constructor
  · simp [binary_encode]
  · intro i hi
    have hxlen : (y.map (fun v => clampI 0 (max_val : Int) v)).length = y.length := by simp
    have hrow : (binary_encode y max_val).getD i [] =
        (binary_encode_go (y.map (fun v => clampI 0 (max_val : Int) v))
          (intLog2 max_val + 1)).map (fun bits => bits.getD i 0) := by
      have hilen : i < ((List.range y.length).map
          (fun b => (binary_encode_go (y.map (fun v => clampI 0 (max_val : Int) v))
            (intLog2 max_val + 1)).map (fun bits => bits.getD b 0))).length := by
        simpa using hi
      rw [show binary_encode y max_val = (List.range y.length).map
          (fun b => (binary_encode_go (y.map (fun v => clampI 0 (max_val : Int) v))
            (intLog2 max_val + 1)).map (fun bits => bits.getD b 0)) from rfl]
      rw [List.getD_eq_getElem _ _ hilen]
      simp
    have hclampD : (y.map (fun v => clampI 0 (max_val : Int) v)).getD i 0 =
        clampI 0 (max_val : Int) (y.getD i 0) := by
      rw [List.getD_eq_getElem _ _ (by simpa using hi), List.getD_eq_getElem _ _ hi]
      simp
    have hcol := binary_encode_go_col (intLog2 max_val + 1)
      (y.map (fun v => clampI 0 (max_val : Int) v)) i (by simpa using hi)
    have h0 : 0 ≤ clampI 0 (max_val : Int) (y.getD i 0) := le_max_left _ _
    have hub : clampI 0 (max_val : Int) (y.getD i 0) < 2 ^ (Nat.log 2 max_val + 1) := by
      have h1 : clampI 0 (max_val : Int) (y.getD i 0) ≤ (max_val : Int) := by
        apply max_le
        · exact_mod_cast Nat.zero_le max_val
        · exact min_le_left _ _
      have h2 : max_val < 2 ^ (Nat.log 2 max_val + 1) :=
        Nat.lt_pow_succ_log_self (by omega) max_val
      have h3 : (max_val : Int) < 2 ^ (Nat.log 2 max_val + 1) := by exact_mod_cast h2
      omega
    obtain ⟨hlen, hmem, hsum⟩ := encode_bits_spec (Nat.log 2 max_val + 1) _ h0 hub
    rw [hrow, hcol, hclampD, hL]
    exact ⟨hlen, hmem, hsum⟩

/-- Witness for C1 at y = [3, 2], max_val = 8, i = 0 (the docstring example): the
first row is the four bits of 3. -/
theorem binary_encode_correct_witness :
    ((binary_encode [3, 2] 8).getD 0 []).length = Nat.log 2 8 + 1 ∧
    (∀ b ∈ (binary_encode [3, 2] 8).getD 0 [], b = 0 ∨ b = 1) ∧
    Finset.sum (Finset.range (Nat.log 2 8 + 1))
      (fun j => ((binary_encode [3, 2] 8).getD 0 []).getD j 0 *
        2 ^ (Nat.log 2 8 + 1 - 1 - j)) =
      clampI 0 (8 : Int) ([3, 2].getD 0 0) :=
  (binary_encode_correct [3, 2] 8 (by decide)).2 0 (by decide)

/-! ## binary_encode frame property -/

/-- A heap of 1-D integer tensors; a reference is an index into the heap. -/
structure Store where
  heap : List (List Int)

/-- Dereference a tensor. -/
def Store.read (s : Store) (r : Nat) : List Int := s.heap.getD r []

/-- Allocate a fresh tensor and return its reference. -/
def Store.alloc (s : Store) (t : List Int) : Store × Nat :=
  (Store.mk (s.heap ++ [t]), s.heap.length)

/-- In-place update of the tensor at reference r. -/
def Store.write (s : Store) (r : Nat) (t : List Int) : Store :=
  Store.mk (s.heap.set r t)

/-- Writing one reference leaves every other reference unchanged. -/
theorem Store.read_write_ne (s : Store) (r w : Nat) (t : List Int) (h : r ≠ w) :
    (s.write w t).read r = s.read r := by
  unfold Store.write Store.read
  simp only [List.getD, List.get?_eq_getElem?]
  rw [List.getElem?_set_ne (by omega)]

/-- Allocation leaves every valid reference unchanged. -/
theorem Store.read_alloc (s : Store) (r : Nat) (t : List Int) (h : r < s.heap.length) :
    (s.alloc t).1.read r = s.read r := by
  unfold Store.alloc Store.read
  simp only [List.getD, List.get?_eq_getElem?]
  rw [List.getElem?_append_left h]

/-- The loop of binary_encode with the in-place subtraction explicit: the
statement x -= bit * num overwrites the tensor at reference x, while the bit
tensors are fresh values collected into the Python list binary. -/
def binary_encode_loop_st (x : Nat) : Store → List (List Int) → Nat → Store × List (List Int)
  | s, acc, 0 => (s, acc)
  | s, acc, n + 1 =>
    let num : Int := 2 ^ n
    let bit : List Int := (s.read x).map (fun v => if num ≤ v then (1 : Int) else 0)
    let s1 := s.write x (List.zipWith (fun v bv => v - bv * num) (s.read x) bit)
    binary_encode_loop_st x s1 (acc ++ [bit]) n

/-- binary_encode over the heap: x = y.clamp(0, max_val) allocates a fresh
tensor, the loop mutates only that tensor, and the bit tensors are stacked
along dim 1 as in binary_encode. -/
def binary_encode_st (s : Store) (y : Nat) (max_val : Nat) : Store × List (List Int) :=
  let ax := s.alloc ((s.read y).map (fun v => clampI 0 (max_val : Int) v))
  let L := intLog2 max_val + 1
  let res := binary_encode_loop_st ax.2 ax.1 [] L
  (res.1, (List.range (s.read y).length).map (fun b => res.2.map (fun bits => bits.getD b 0)))

/-- The loop writes only to its working tensor. -/
theorem binary_encode_loop_st_frame (x r : Nat) (hne : r ≠ x) :
    ∀ (n : Nat) (s : Store) (acc : List (List Int)),
      ((binary_encode_loop_st x s acc n).1).read r = s.read r := by
  intro n
  induction n with
  | zero => intro s acc; rfl
  | succ n ih =>
    intro s acc
    show ((binary_encode_loop_st x _ _ n).1).read r = s.read r
    rw [ih]
    exact Store.read_write_ne s r x _ hne

/-- Claim C10: binary_encode does not modify its input tensor: after the call
the tensor at reference y holds the same values as before; the clamp produced a
fresh tensor and the in-place subtractions touched only that copy. -/
theorem binary_encode_st_frame (s : Store) (y : Nat) (max_val : Nat)
    (hm : 0 < max_val) (hy : y < s.heap.length) :
    ((binary_encode_st s y max_val).1).read y = s.read y := by
  show ((binary_encode_loop_st s.heap.length _ [] (intLog2 max_val + 1)).1).read y = s.read y
  rw [binary_encode_loop_st_frame s.heap.length y (by omega)]
  exact Store.read_alloc s y _ hy

/-- Witness for C10: the heap holding the single tensor [3, 2] at reference 0 is
unchanged at that reference by binary_encode with max_val = 8. -/
theorem binary_encode_st_frame_witness :
    ((binary_encode_st (Store.mk [[3, 2]]) 0 8).1).read 0 = (Store.mk [[3, 2]]).read 0 :=
  binary_encode_st_frame (Store.mk [[3, 2]]) 0 8 (by decide) (by decide)

/-! ## DRQN output shapes -/

/-- A 3-D tensor as nested lists. -/
abbrev Tensor3 := List (List (List Int))

/-- Build a (t, b, d) tensor from a value function. -/
def mkTensor3 (t b d : Nat) (f : Nat → Nat → Nat → Int) : Tensor3 :=
  (List.range t).map (fun ti => (List.range b).map (fun bi => (List.range d).map (f ti bi)))

/-- Decidable shape check: x has shape (t, b, d). -/
def hasShape3 (x : Tensor3) (t b d : Nat) : Bool :=
  x.length == t && x.all (fun row => row.length == b && row.all (fun e => e.length == d))

/-- Action dimension of a DQN/DRQN head: a scalar d or a tuple of dims. -/
inductive ActionDim
  | scalar (d : Nat)
  | tuple (ds : List Nat)

/-- The logit output: a single tensor, or one tensor per action dimension. -/
inductive DRQNLogit
  | single (t : Tensor3)
  | multi (ts : List Tensor3)

/-- The per-dimension logit tensors of a tuple head. -/
def drqn_tuple_logits (net : Nat → Nat → Nat → Nat → Int) (t b : Nat) (ds : List Nat) :
    List Tensor3 :=
  (List.range ds.length).map (fun i => mkTensor3 t b (ds.getD i 0) (net i))

/-- Modelled from the spec: the DRQN model classes (FCDRQN, ConvDRQN) are not in
this fragment, only their unit test is.  Per the spec they are recurrent
Q-value network architectures; fed t timesteps of batch size b (with
enable_fast_timestep) the head emits, for a scalar action dimension d, one
logit tensor of shape (t, b, d), and for a tuple of action dimensions one such
tensor per entry; net i ti bi k is the k-th Q-value of head i at timestep ti
for batch entry bi. -/
def drqn_forward (net : Nat → Nat → Nat → Nat → Int) (t b : Nat) : ActionDim → DRQNLogit
  | ActionDim.scalar d => DRQNLogit.single (mkTensor3 t b d (net 0))
  | ActionDim.tuple ds => DRQNLogit.multi (drqn_tuple_logits net t b ds)

/-- The tensor builder meets the shape check. -/
theorem mkTensor3_shape (t b d : Nat) (f : Nat → Nat → Nat → Int) :
    hasShape3 (mkTensor3 t b d f) t b d = true := by
  simp [hasShape3, mkTensor3, List.all_eq_true]

/-- Claim C7 (spec-modelled): the logit output of a DRQN with scalar action
dimension d over t fast timesteps of batch size b has shape (t, b, d); with a
tuple of action dimensions it is a list of as many tensors, the i-th of shape
(t, b, ds_i). -/
theorem drqn_output_shapes (net : Nat → Nat → Nat → Nat → Int) (t b d : Nat)
    (ds : List Nat) (i : Nat) (hi : i < ds.length) :
    drqn_forward net t b (ActionDim.scalar d) = DRQNLogit.single (mkTensor3 t b d (net 0)) ∧
    hasShape3 (mkTensor3 t b d (net 0)) t b d = true ∧
    drqn_forward net t b (ActionDim.tuple ds) =
      DRQNLogit.multi (drqn_tuple_logits net t b ds) ∧
    (drqn_tuple_logits net t b ds).length = ds.length ∧
    hasShape3 ((drqn_tuple_logits net t b ds).getD i []) t b (ds.getD i 0) = true := by
  refine ⟨rfl, mkTensor3_shape t b d (net 0), rfl, by simp [drqn_tuple_logits], ?_⟩
  have hlen : i < (drqn_tuple_logits net t b ds).length := by
    simpa [drqn_tuple_logits] using hi
  have hget : (drqn_tuple_logits net t b ds).getD i [] =
      mkTensor3 t b (ds.getD i 0) (net i) := by
    rw [List.getD_eq_getElem _ _ hlen]
    simp [drqn_tuple_logits]
  rw [hget]
  exact mkTensor3_shape t b (ds.getD i 0) (net i)

/-- Witness for C7 at the test dimensions t = 6, b = 4, scalar d = 6 and tuple
ds = [4, 8] with the zero network, at tuple index i = 1. -/
theorem drqn_output_shapes_witness :
    drqn_forward (fun _ _ _ _ => (0 : Int)) 6 4 (ActionDim.scalar 6) =
      DRQNLogit.single (mkTensor3 6 4 6 ((fun _ _ _ _ => (0 : Int)) 0)) ∧
    hasShape3 (mkTensor3 6 4 6 ((fun _ _ _ _ => (0 : Int)) 0)) 6 4 6 = true ∧
    drqn_forward (fun _ _ _ _ => (0 : Int)) 6 4 (ActionDim.tuple [4, 8]) =
      DRQNLogit.multi (drqn_tuple_logits (fun _ _ _ _ => (0 : Int)) 6 4 [4, 8]) ∧
    (drqn_tuple_logits (fun _ _ _ _ => (0 : Int)) 6 4 [4, 8]).length = ([4, 8] : List Nat).length ∧
    hasShape3 ((drqn_tuple_logits (fun _ _ _ _ => (0 : Int)) 6 4 [4, 8]).getD 1 []) 6 4
      (([4, 8] : List Nat).getD 1 0) = true :=
  drqn_output_shapes (fun _ _ _ _ => (0 : Int)) 6 4 6 [4, 8] 1 (by decide)

end NNModule
